import Mathlib

/-!
# Verification of the scholarship response-parsing pipeline

This development embeds the response-parsing pipeline of the scholarship
backend in Lean.  The repository has two variants of the pipeline:

* the richer variant (`parseScholarshipResponse` with its helpers
  `extractScholarshipName`, `extractAmount`, `extractEligibility`,
  `extractDeadline`, `extractDescription`, `extractLink` in `server.js`), and
* the simpler variant (`parseScholarships` with `extractName`,
  `extractAmount`, ... in the second source file).

Strings are modelled as `List Char`.  All inputs the pipeline handles are
sequences of UTF-16 basic-plane code points, so JavaScript `.length` agrees
with `List.length`.  The fixed regular expressions of the source are
transcribed into a small syntax tree (`RElem`) and executed by a
backtracking matcher that follows the JavaScript semantics used by the
source: leftmost match, greedy repetition with backtracking, alternatives
tried in written order.
-/

set_option maxRecDepth 1000000
set_option maxHeartbeats 4000000

namespace ScholarParse

/-- ASCII lower-casing, the behaviour of JavaScript `toLowerCase` on the
ASCII letters (all other characters appearing in the pipeline are fixed by
`toLowerCase`). -/
def jsLower (c : Char) : Char :=
  if 'A' ≤ c && c ≤ 'Z' then Char.ofNat (c.toNat + 32) else c

/-- JavaScript whitespace (`\s`, and the set removed by `trim`), restricted
to the code points that can occur here: space, tab, line feed, vertical tab,
form feed, carriage return. -/
def isJSSpace (c : Char) : Bool :=
  c = ' ' || c = '\t' || c = '\n' || c.toNat = 11 || c.toNat = 12 || c = '\r'

/-- JavaScript word characters (`\w`), used by the `\b` boundary. -/
def isWordChar (c : Char) : Bool :=
  ('A' ≤ c && c ≤ 'Z') || ('a' ≤ c && c ≤ 'z') || ('0' ≤ c && c ≤ '9') || c = '_'

/-- Character classes of the source regular expressions. -/
inductive CClass where
  | oneOf (cs : List Char)
  | rng (lo hi : Char)
  | union (a b : CClass)
  | compl (a : CClass)
deriving Repr

def CClass.mem (ch : Char) : CClass → Bool
  | .oneOf cs => cs.contains ch
  | .rng lo hi => lo ≤ ch && ch ≤ hi
  | .union a b => CClass.mem ch a || CClass.mem ch b
  | .compl a => !(CClass.mem ch a)

/-- The `\s` as a class. -/
def clsSpace : CClass := .oneOf [' ', '\t', '\n', Char.ofNat 11, Char.ofNat 12, '\r']

/-- The `\d` as a class. -/
def clsDigit : CClass := .rng '0' '9'

/-- The `[A-Z]`. -/
def clsUpper : CClass := .rng 'A' 'Z'

mutual

/-- Elements of the source regular expressions.  Repetition only ever
ranges over a character class in the source patterns, which keeps the
matcher structurally recursive (and hence kernel-reducible). -/
inductive RElem where
  | cls (c : CClass)
  | lit (l : List Char)
  | litCI (l : List Char)
  | reps (c : CClass) (lo : Nat) (hi : Option Nat)
  | alts (xss : RAlts)
  | grp (xs : RSeq)
  | bol
  | wordB

/-- A sequence of elements (concatenation). -/
inductive RSeq where
  | nil
  | cons (e : RElem) (es : RSeq)

/-- A non-capturing alternation, alternatives in written order. -/
inductive RAlts where
  | nil
  | cons (xs : RSeq) (rest : RAlts)

end

/-- Build a sequence from a list of elements. -/
def seqOf (es : List RElem) : RSeq := es.foldr .cons .nil

/-- Build an alternation from a list of element lists. -/
def altsOf (xss : List (List RElem)) : RAlts := (xss.map seqOf).foldr .cons .nil

/-- Surface syntax for `(?:a|b|...)`. -/
def ralts (xss : List (List RElem)) : RElem := .alts (altsOf xss)

/-- Surface syntax for the capture group. -/
def rgrp (xs : List RElem) : RElem := .grp (seqOf xs)

/-- A capture: absolute start and stop offsets in the subject. -/
abbrev Cap := Option (Nat × Nat)

/-- Continuation used by the matcher. -/
abbrev MK := Nat → Cap → Option (Nat × Cap)

/-- Length of the run of characters of class `c` at the head of the list. -/
def runLen (c : CClass) : List Char → Nat
  | [] => 0
  | ch :: t => if c.mem ch then runLen c t + 1 else 0

/-- Greedy repetition: try the continuation with `top` characters consumed,
then `top - 1`, ..., down to `lo` (the JavaScript backtracking order). -/
def goReps (f : Nat → Option (Nat × Cap)) (lo top : Nat) : Option (Nat × Cap) :=
  ((List.range (top + 1 - lo)).map (fun k => top - k)).findSome? f

mutual

/-- The backtracking matcher.  `matchSeq s es i cap k` matches the element
sequence `es` against `s` starting at offset `i`, with `cap` the capture
recorded so far, calling the continuation `k` on success.  Backtracking
order follows the JavaScript engine: greedy repetition longest-first,
alternatives in written order. -/
def matchSeq (s : List Char) : RSeq → Nat → Cap → MK → Option (Nat × Cap)
  | .nil, i, cap, k => k i cap
  | .cons e es, i, cap, k => matchElem s e i cap (fun j c => matchSeq s es j c k)

/-- Match a single element, then run the continuation. -/
def matchElem (s : List Char) : RElem → Nat → Cap → MK → Option (Nat × Cap)
  | .cls c, i, cap, k =>
    match s.get? i with
    | some ch => if c.mem ch then k (i + 1) cap else none
    | none => none
  | .lit l, i, cap, k =>
    if (s.drop i).take l.length = l then k (i + l.length) cap else none
  | .litCI l, i, cap, k =>
    if ((s.drop i).take l.length).map jsLower = l.map jsLower then
      k (i + l.length) cap
    else none
  | .reps c lo hi, i, cap, k =>
    let avail := runLen c (s.drop i)
    let top := match hi with | some h => min avail h | none => avail
    goReps (fun n => k (i + n) cap) lo top
  | .alts xss, i, cap, k => matchAlts s xss i cap k
  | .grp xs, i, cap, k => matchSeq s xs i cap (fun j _ => k j (some (i, j)))
  | .bol, i, cap, k =>
    if i = 0 then k i cap
    else
      match s.get? (i - 1) with
      | some ch => if ch = '\n' then k i cap else none
      | none => none
  | .wordB, i, cap, k =>
    let before := if i = 0 then false else
      match s.get? (i - 1) with | some ch => isWordChar ch | none => false
    let after := match s.get? i with | some ch => isWordChar ch | none => false
    if before ≠ after then k i cap else none

/-- Try each alternative in order, backtracking across the continuation. -/
def matchAlts (s : List Char) : RAlts → Nat → Cap → MK → Option (Nat × Cap)
  | .nil, _, _, _ => none
  | .cons xs rest, i, cap, k =>
    match matchSeq s xs i cap k with
    | some r => some r
    | none => matchAlts s rest i cap k

end

/-- Match the pattern at a fixed offset (returns end offset and capture). -/
def matchAt (p : List RElem) (s : List Char) (i : Nat) : Option (Nat × Cap) :=
  matchSeq s (seqOf p) i none (fun j c => some (j, c))

/-- JavaScript `String.prototype.match` without the `g` flag: the leftmost
match, as (start, stop, capture). -/
def findMatch (p : List RElem) (s : List Char) : Option (Nat × Nat × Cap) :=
  (List.range (s.length + 1)).findSome?
    (fun i => (matchAt p s i).map (fun jc => (i, jc.1, jc.2)))

/-- The contiguous slice of `s` between offsets `a` and `b`. -/
def slice (s : List Char) (a b : Nat) : List Char := (s.drop a).take (b - a)

/-- The `match[1]` of the leftmost match (the pattern's capture group). -/
def groupOf (p : List RElem) (s : List Char) : Option (List Char) :=
  match findMatch p s with
  | some (_, _, some (a, b)) => some (slice s a b)
  | _ => none

/-- The `match[0]` of the leftmost match. -/
def wholeOf (p : List RElem) (s : List Char) : Option (List Char) :=
  match findMatch p s with
  | some (i, j, _) => some (slice s i j)
  | none => none

/-- The `match[1] || match[0]`: the capture when it is a non-empty string,
otherwise the whole match (JavaScript truthiness on strings). -/
def capOrWhole (p : List RElem) (s : List Char) : Option (List Char) :=
  match findMatch p s with
  | some (i, j, some (a, b)) =>
    if slice s a b = [] then some (slice s i j) else some (slice s a b)
  | some (i, j, none) => some (slice s i j)
  | none => none

/-! ## String helpers shared by both variants -/

/-- JavaScript `String.prototype.trim`. -/
def trimJS (l : List Char) : List Char :=
  ((l.dropWhile isJSSpace).reverse.dropWhile isJSSpace).reverse

/-- Lower-cased copy (JavaScript `toLowerCase` on the characters in play). -/
def lowerL (l : List Char) : List Char := l.map jsLower

/-- JavaScript `a.includes(b)`: `b` occurs contiguously in `a`. -/
def includesB (a b : List Char) : Bool := decide (b <:+: a)

/-- JavaScript `a.startsWith(b)` (case-sensitive). -/
def startsWith (a b : List Char) : Bool := a.take b.length = b

/-- Case-insensitive anchored prefix test, used for the article regex. -/
def startsWithCI (a b : List Char) : Bool :=
  (a.take b.length).map jsLower = b.map jsLower

/-- The `name.replace(/^(The |A )/i, '')`: strip one leading article. -/
def stripArticle (l : List Char) : List Char :=
  if startsWithCI l "The ".data then l.drop 4
  else if startsWithCI l "A ".data then l.drop 2
  else l

/-! ## Consuming split (ECMAScript `String.prototype.split` with a
non-lookahead separator regex).  Pieces between separator matches are
collected; separators never match the empty string here, but the
empty-match bookkeeping of the ECMAScript algorithm is kept. -/

def splitConsumingGo (d : List RElem) (s : List Char) : Nat → Nat → Nat → List (List Char)
  | 0, p, _ => [s.drop p]
  | fuel + 1, p, q =>
    if q < s.length then
      match (matchAt d s q).map (fun jc => jc.1) with
      | none => splitConsumingGo d s fuel p (q + 1)
      | some e =>
        if e = p then splitConsumingGo d s fuel p (q + 1)
        else if e ≤ q then slice s p q :: splitConsumingGo d s fuel q (q + 1)
        else slice s p q :: splitConsumingGo d s fuel e e
    else [s.drop p]

def splitConsuming (d : List RElem) (s : List Char) : List (List Char) :=
  splitConsumingGo d s s.length 0 0

/-! ## Lookahead split (richer variant): the separator is a pure lookahead,
so the text is cut at every interior position where one of the
alternatives matches, and nothing is consumed. -/

/-- Does one of the alternatives match starting exactly at offset `i`? -/
def lookAt (alts : List (List RElem)) (s : List Char) (i : Nat) : Bool :=
  alts.any (fun xs => (matchAt xs s i).isSome)

/-- Cut `s` at the (ascending) positions `ps`, starting from offset `a`. -/
def cutFrom (s : List Char) (a : Nat) : List Nat → List (List Char)
  | [] => [s.drop a]
  | p :: ps => (s.drop a).take (p - a) :: cutFrom s p ps

/-! ## Common character classes -/

def clsLowerC : CClass := .rng 'a' 'z'

/-- The `[A-Za-z\s&-]`. -/
def clsNameBody : CClass :=
  .union clsUpper (.union clsLowerC (.union clsSpace (.oneOf ['&', '-'])))

/-- The `[^.\n]`. -/
def clsNotDotNL : CClass := .compl (.oneOf ['.', '\n'])

/-- The `.` (any character but a newline). -/
def clsNotNL : CClass := .compl (.oneOf ['\n'])

/-- The `[\d,.\s]`. -/
def clsAmt : CClass := .union clsDigit (.union (.oneOf [',', '.']) clsSpace)

/-- The `[:\s]`. -/
def clsColonSpace : CClass := .union (.oneOf [':']) clsSpace

/-- The `[^\s]`. -/
def clsNotSpace : CClass := .compl clsSpace

/-- The `[^\s)]`. -/
def clsNotSpaceParen : CClass := .compl (.union clsSpace (.oneOf [')']))

/-- The `(?: ... )?`, the greedy option. -/
def opt (xs : List RElem) : RElem := ralts [xs, []]

/-- The `[Xx]rest`, the two-case spelling of a keyword in a case-sensitive
pattern (`w` is given capitalised). -/
def twoCase (w : List Char) : List RElem :=
  match w with
  | c :: rest => [.cls (.oneOf [c, jsLower c]), .lit rest]
  | [] => []

/-- The scholarship record; every field is a JavaScript string. -/
structure Scholarship where
  name : List Char
  amount : List Char
  eligibility : List Char
  deadline : List Char
  description : List Char
  link : List Char
deriving DecidableEq, Repr, Inhabited

/-- The canonical government portal URL used as the link default. -/
def portalURL : List Char := "https://scholarships.gov.in".data

/-- Model of WHATWG URL validation (Node's `new URL`), which is the
platform primitive `extractLink` calls and is not part of this repository:
restricted to the `http`/`https` candidates the extractor produces, the
constructor succeeds exactly when the authority holds a non-empty host
free of forbidden host code points, with a digits-only port. -/
def isValidURL (l : List Char) : Bool :=
  let rest :=
    if startsWith l "https://".data then some (l.drop 8)
    else if startsWith l "http://".data then some (l.drop 7)
    else none
  match rest with
  | none => false
  | some r =>
    let auth := r.takeWhile (fun c => !(c = '/' || c = '?' || c = '#'))
    let hostport := (auth.reverse.takeWhile (fun c => c ≠ '@')).reverse
    let host := hostport.takeWhile (fun c => c ≠ ':')
    let port := (hostport.dropWhile (fun c => c ≠ ':')).drop 1
    !host.isEmpty &&
      host.all (fun c =>
        !(c = ' ' || c = '#' || c = '%' || c = '/' || c = ':' || c = '?' || c = '@' ||
          c = '[' || c = '\\' || c = ']' || c = '^' || c = '|' || c = '<' || c = '>' ||
          decide (c.toNat < 33))) &&
      port.all (fun c => clsDigit.mem c)

/-! ## Richer variant (`server.js`) -/

namespace Rich

/-- Lookahead alternatives of the section split in `parseScholarshipResponse`:
`(?=\d+\.|\n##|\*\*[A-Z].*[Ss]cholarship|\n[A-Z].*[Ss]cholarship|\n- [A-Z])`. -/
def splitAlts : List (List RElem) :=
  [[.reps clsDigit 1 none, .lit ".".data],
   [.lit "\n##".data],
   [.lit "**".data, .cls clsUpper, .reps clsNotNL 0 none,
    .cls (.oneOf ['S', 's']), .lit "cholarship".data],
   [.lit "\n".data, .cls clsUpper, .reps clsNotNL 0 none,
    .cls (.oneOf ['S', 's']), .lit "cholarship".data],
   [.lit "\n- ".data, .cls clsUpper]]

/-- Interior positions at which the lookahead separator matches (a match at
offset 0 never produces a split in the ECMAScript algorithm). -/
def splitPositions (s : List Char) : List Nat :=
  (List.range s.length).filter (fun p => decide (0 < p) && lookAt splitAlts s p)

/-- The `responseText.split(/(?=...)/)`: cut at lookahead positions, consuming
nothing. -/
def splitSections (s : List Char) : List (List Char) :=
  cutFrom s 0 (splitPositions s)

/-- The `/(?:\d+\.|\*\*|##)\s*([^.\n]+(?:[Ss]cholarship|[Gg]rant|[Ff]ellowship|[Aa]ward|[Ss]cheme|[Yy]ojana))/i` -/
def nameP1 : List RElem :=
  [ralts [[.reps clsDigit 1 none, .lit ".".data], [.lit "**".data], [.lit "##".data]],
   .reps clsSpace 0 none,
   rgrp [.reps clsNotDotNL 1 none,
         ralts [[.litCI "scholarship".data], [.litCI "grant".data],
                [.litCI "fellowship".data], [.litCI "award".data],
                [.litCI "scheme".data], [.litCI "yojana".data]]]]

/-- The `/([A-Z][A-Za-z\s&-]{8,60}(?:[Ss]cholarship|[Gg]rant|[Ff]ellowship|[Aa]ward|[Ss]cheme|[Yy]ojana))/` -/
def nameP2 : List RElem :=
  [rgrp [.cls clsUpper, .reps clsNameBody 8 (some 60),
         ralts [twoCase "Scholarship".data, twoCase "Grant".data,
                twoCase "Fellowship".data, twoCase "Award".data,
                twoCase "Scheme".data, twoCase "Yojana".data]]]

/-- The `/^([A-Z][^.\n]{10,100}(?:[Ss]cholarship|[Gg]rant|[Ff]ellowship|[Aa]ward|[Ss]cheme))/m` -/
def nameP3 : List RElem :=
  [.bol,
   rgrp [.cls clsUpper, .reps clsNotDotNL 10 (some 100),
         ralts [twoCase "Scholarship".data, twoCase "Grant".data,
                twoCase "Fellowship".data, twoCase "Award".data,
                twoCase "Scheme".data]]]

/-- One round of the `extractScholarshipName` loop body: on a match with a
truthy group, trim, strip the article, and return the name only when its
length passes the `(10, 150)` gate; otherwise fall through. -/
def nameFromPattern (p : List RElem) (t : List Char) : Option (List Char) :=
  match groupOf p t with
  | some cap =>
    if cap = [] then none
    else
      let n := stripArticle (trimJS cap)
      if 10 < n.length ∧ n.length < 150 then some n else none
  | none => none

/-- Default of the richer name extractor. -/
def educationalOpportunity : List Char := "Educational Opportunity".data

/-- The `extractScholarshipName` of `server.js`. -/
def extractScholarshipName (t : List Char) : List Char :=
  match nameFromPattern nameP1 t with
  | some n => n
  | none =>
    match nameFromPattern nameP2 t with
    | some n => n
    | none =>
      match nameFromPattern nameP3 t with
      | some n => n
      | none => educationalOpportunity

/-- The `(?:\s*(?:lakh|crore|per year|per month|annually|monthly))?` -/
def amountSuffix1 : RElem :=
  opt [.reps clsSpace 0 none,
       ralts [[.litCI "lakh".data], [.litCI "crore".data], [.litCI "per year".data],
              [.litCI "per month".data], [.litCI "annually".data], [.litCI "monthly".data]]]

/-- The `(?:\s*(?:lakh|crore|per year|per month|annually))?` -/
def amountSuffix2 : RElem :=
  opt [.reps clsSpace 0 none,
       ralts [[.litCI "lakh".data], [.litCI "crore".data], [.litCI "per year".data],
              [.litCI "per month".data], [.litCI "annually".data]]]

/-- The `(?:\s*(?:lakh|crore|per year))?` -/
def amountSuffix3 : RElem :=
  opt [.reps clsSpace 0 none,
       ralts [[.litCI "lakh".data], [.litCI "crore".data], [.litCI "per year".data]]]

/-- The five amount patterns of `extractAmount` in `server.js`, in order. -/
def amountPatterns : List (List RElem) :=
  [[.lit "₹".data, .reps clsAmt 1 none, amountSuffix1],
   [.litCI "rs".data, opt [.lit ".".data], .reps clsSpace 0 none,
    .reps clsAmt 1 none, amountSuffix2],
   [.litCI "inr".data, .reps clsSpace 0 none, .reps clsAmt 1 none],
   [.litCI "up to".data, .reps clsSpace 0 none, opt [.lit "₹".data], .reps clsAmt 1 none],
   [.litCI "amount".data, .reps clsColonSpace 0 none, opt [.lit "₹".data],
    .reps clsAmt 1 none, amountSuffix3]]

/-- The `extractAmount` of `server.js`: first pattern with a match wins, the
first match is returned trimmed. -/
def extractAmount (t : List Char) : List Char :=
  match amountPatterns.findSome? (fun p => wholeOf p t) with
  | some m => trimJS m
  | none => "Amount varies".data

/-- The five eligibility patterns of `server.js`, in order. -/
def eligPatterns : List (List RElem) :=
  [[.litCI "eligibility".data, .reps clsColonSpace 0 none, rgrp [.reps clsNotDotNL 20 (some 150)]],
   [.litCI "eligible".data, .reps clsColonSpace 0 none, rgrp [.reps clsNotDotNL 20 (some 150)]],
   [.litCI "criteria".data, .reps clsColonSpace 0 none, rgrp [.reps clsNotDotNL 20 (some 150)]],
   [.litCI "requirement".data, opt [.cls (.oneOf ['s', 'S'])], .reps clsColonSpace 0 none,
    rgrp [.reps clsNotDotNL 20 (some 150)]],
   [.litCI "for".data, .reps clsSpace 1 none,
    rgrp [.reps clsNotDotNL 25 (some 120),
          ralts [[.litCI "students".data], [.litCI "candidates".data]]]]]

/-- The `extractEligibility` of `server.js`: a match with a truthy group whose
trimmed capture is longer than 20 characters wins; otherwise fall through. -/
def extractEligibility (t : List Char) : List Char :=
  match eligPatterns.findSome? (fun p =>
      match groupOf p t with
      | some cap =>
        if cap = [] then none
        else
          let e := trimJS cap
          if 20 < e.length then some e else none
      | none => none) with
  | some e => e
  | none => "Check official website for detailed eligibility criteria".data

/-- The month-name alternatives (case-sensitive, as in the source). -/
def monthAlts : List (List RElem) :=
  [[.lit "January".data], [.lit "February".data], [.lit "March".data], [.lit "April".data],
   [.lit "May".data], [.lit "June".data], [.lit "July".data], [.lit "August".data],
   [.lit "September".data], [.lit "October".data], [.lit "November".data],
   [.lit "December".data]]

/-- The seven deadline patterns of `server.js`, in order. -/
def deadlinePatterns : List (List RElem) :=
  [[.litCI "deadline".data, .reps clsColonSpace 0 none, rgrp [.reps clsNotDotNL 10 (some 60)]],
   [.litCI "due".data, .reps clsColonSpace 0 none,
    rgrp [.litCI "by".data, .reps clsSpace 1 none, .reps clsNotDotNL 8 (some 50)]],
   [.litCI "apply by".data, .reps clsColonSpace 0 none, rgrp [.reps clsNotDotNL 10 (some 50)]],
   [.litCI "last date".data, .reps clsColonSpace 0 none, rgrp [.reps clsNotDotNL 10 (some 50)]],
   [.wordB, ralts monthAlts, .reps clsSpace 1 none, .reps clsDigit 1 (some 2),
    opt [ralts [[.lit "st".data], [.lit "nd".data], [.lit "rd".data], [.lit "th".data]]],
    opt [.cls (.oneOf [','])], .reps clsSpace 0 none, .lit "202".data,
    .cls (.oneOf ['5', '6']), .wordB],
   [.reps clsDigit 1 (some 2), .cls (.oneOf ['/', '-']), .reps clsDigit 1 (some 2),
    .cls (.oneOf ['/', '-']), .lit "202".data, .cls (.oneOf ['5', '6'])],
   [.lit "202".data, .cls (.oneOf ['5', '6']), .reps clsSpace 0 none,
    ralts [[.litCI "deadline".data], [.litCI "due".data]]]]

/-- The `extractDeadline` of `server.js`: on the first matching pattern
return `(match[1] || match[0]).trim()`. -/
def extractDeadline (t : List Char) : List Char :=
  match deadlinePatterns.findSome? (fun p => capOrWhole p t) with
  | some m => trimJS m
  | none => "Check official website for application deadlines".data

/-- The sentence separator `/[.!?]+/` of `extractDescription`. -/
def sentenceSep : List RElem := [.reps (.oneOf ['.', '!', '?']) 1 none]

/-- The `extractDescription` of `server.js`. -/
def extractDescription (t : List Char) : List Char :=
  let sentences := splitConsuming sentenceSep t
  let relevant := (sentences.filter (fun sen =>
    decide (40 < sen.length) && decide (sen.length < 200) &&
    !includesB (lowerL sen) "scholarship name".data &&
    !includesB (lowerL sen) "eligibility criteria".data &&
    !includesB (lowerL sen) "application deadline".data)).take 2
  if relevant.isEmpty then
    "Financial assistance program for eligible students to pursue higher education.".data
  else trimJS (List.intercalate ". ".data relevant) ++ ".".data

/-- The three link patterns of `server.js`, in order. -/
def linkPatterns : List (List RElem) :=
  [[rgrp [.lit "http".data, opt [.lit "s".data], .lit "://".data,
          .reps clsNotSpaceParen 1 none]],
   [ralts [[.litCI "website".data], [.litCI "portal".data], [.litCI "apply".data]],
    .reps clsColonSpace 0 none, rgrp [.litCI "www.".data, .reps clsNotSpace 1 none]],
   [ralts [[.litCI "visit".data], [.litCI "check".data]],
    .reps clsColonSpace 0 none, rgrp [.litCI "www.".data, .reps clsNotSpace 1 none]]]

/-- The `extractLink` of `server.js`: take `match[1] || match[0]`, prepend the
secure scheme when the candidate does not start with `http`, keep it only
when `new URL` accepts it, otherwise continue with the next pattern;
`null` when every pattern fails. -/
def extractLink (t : List Char) : Option (List Char) :=
  linkPatterns.findSome? (fun p =>
    match capOrWhole p t with
    | some m =>
      let link := if startsWith m "http".data then m else "https://".data ++ m
      if isValidURL link then some link else none
    | none => none)

/-- The `extractScholarshipInfo` of `server.js` (the link default is applied by
the caller through `|| 'https://scholarships.gov.in'`). -/
def extractScholarshipInfo (t : List Char) : Scholarship :=
  { name := extractScholarshipName t
    amount := extractAmount t
    eligibility := extractEligibility t
    deadline := extractDeadline t
    description := extractDescription t
    link := (extractLink t).getD portalURL }

/-- The validation test applied to a candidate inside
`parseScholarshipResponse`. -/
def validate (c : Scholarship) : Bool :=
  !c.name.isEmpty &&
    decide (8 < c.name.length) && decide (c.name.length < 200) &&
    !includesB (lowerL c.name) "here are".data &&
    !includesB (lowerL c.name) "following".data &&
    (includesB (lowerL c.name) "scholarship".data ||
     includesB (lowerL c.name) "grant".data ||
     includesB (lowerL c.name) "fellowship".data ||
     includesB (lowerL c.name) "award".data ||
     includesB (lowerL c.name) "scheme".data)

/-- The fallback catalog pushed when no scholarship was parsed. -/
def fallback : List Scholarship :=
  [{ name := "National Scholarship Portal (NSP)".data
     amount := "₹12,000 - ₹2,00,000 per year".data
     eligibility := "Various categories including merit-based, need-based, SC/ST, OBC, and minority students".data
     deadline := "Multiple deadlines (Usually October to December 2025)".data
     description := "Government of India\x27s centralized platform offering various scholarship schemes for students across different categories and educational levels.".data
     link := "https://scholarships.gov.in".data },
   { name := "Post Matric Scholarship Scheme for SC Students".data
     amount := "₹230 - ₹1,200 per month + academic fees".data
     eligibility := "SC students pursuing post-matriculation studies with family income below ₹2.5 lakh".data
     deadline := "November 30, 2025".data
     description := "Central government scheme providing financial assistance to SC students for higher education.".data
     link := "https://scholarships.gov.in".data },
   { name := "Merit cum Means Scholarship for Professional Courses".data
     amount := "₹20,000 per year".data
     eligibility := "Students with family income below ₹2.5 lakh and good academic record (80% or above)".data
     deadline := "December 31, 2025".data
     description := "UGC scheme for economically weaker students pursuing professional courses.".data
     link := "https://scholarships.gov.in".data },
   { name := "Inspire Scholarship for Higher Education".data
     amount := "₹80,000 per year".data
     eligibility := "Top 1% students in Class XII board examination pursuing B.Sc./B.S./B.Tech./Integrated M.Sc.".data
     deadline := "July 31, 2025".data
     description := "DST scheme to attract talented students to pursue careers in science and technology.".data
     link := "https://online-inspire.gov.in".data }]

/-- The collection loop of `parseScholarshipResponse`: sections in order,
stopping as soon as ten candidates were accepted; a section is trimmed,
skipped when shorter than 100 characters, and otherwise extracted and
validated. -/
def collect : List (List Char) → List Scholarship → List Scholarship
  | [], acc => acc
  | sec :: rest, acc =>
    if acc.length < 10 then
      let t := trimJS sec
      if t.length < 100 then collect rest acc
      else
        let c := extractScholarshipInfo t
        if validate c then collect rest (acc ++ [c]) else collect rest acc
    else acc

/-- The candidates accepted for an input, in document order. -/
def accepted (s : List Char) : List Scholarship := collect (splitSections s) []

/-- The `parseScholarshipResponse` of `server.js` on a string input (on which
the body raises no exception): collect, substitute the fallback catalog
when nothing was accepted, return the first eight. -/
def parseScholarshipResponse (s : List Char) : List Scholarship :=
  let acc := accepted s
  (if acc.isEmpty then fallback else acc).take 8

/-- The `parseScholarshipResponse` when an internal exception interrupts the
`try` block while section `k` is being processed: the `catch` only logs, so
the function returns the candidates accepted from the first `k` sections,
truncated to eight — the fallback branch inside the `try` block is skipped. -/
def parseFault (k : Nat) (s : List Char) : List Scholarship :=
  (collect ((splitSections s).take k) []).take 8

end Rich

/-! ## Simpler variant (second source file) -/

namespace Simple

/-- The consuming section separator of `parseScholarships`:
`/(?:\d+\.|\n-|\*\*|\n#{1,3})/`. -/
def sectionSep : List RElem :=
  [ralts [[.reps clsDigit 1 none, .lit ".".data],
          [.lit "\n-".data],
          [.lit "**".data],
          [.lit "\n".data, .reps (.oneOf ['#']) 1 (some 3)]]]

/-- The `text.split(/(?:\d+\.|\n-|\*\*|\n#{1,3})/)`: the separator is consumed
and removed from the pieces. -/
def splitSections (s : List Char) : List (List Char) :=
  splitConsuming sectionSep s

/-- The `/([A-Z][A-Za-z\s&-]+(?:Scholarship|Grant|Fellowship|Award|Scheme|Yojana))/` -/
def nameP1 : List RElem :=
  [rgrp [.cls clsUpper, .reps clsNameBody 1 none,
         ralts [[.lit "Scholarship".data], [.lit "Grant".data], [.lit "Fellowship".data],
                [.lit "Award".data], [.lit "Scheme".data], [.lit "Yojana".data]]]]

/-- The `/^([A-Z][^.\n]+(?:Scholarship|Grant|Fellowship|Award))/m` -/
def nameP2 : List RElem :=
  [.bol,
   rgrp [.cls clsUpper, .reps clsNotDotNL 1 none,
         ralts [[.lit "Scholarship".data], [.lit "Grant".data],
                [.lit "Fellowship".data], [.lit "Award".data]]]]

/-- Default of the simpler name extractor. -/
def educationalGrant : List Char := "Educational Grant".data

/-- The `extractName` of the simpler variant: on the first matching pattern
return `match[1].trim()` — no article stripping and no length gate. -/
def extractName (t : List Char) : List Char :=
  match groupOf nameP1 t with
  | some cap => trimJS cap
  | none =>
    match groupOf nameP2 t with
    | some cap => trimJS cap
    | none => educationalGrant

/-- The three amount patterns of the simpler `extractAmount`, in order. -/
def amountPatterns : List (List RElem) :=
  [[.lit "₹".data, .reps clsAmt 1 none,
    opt [.reps clsSpace 0 none,
         ralts [[.litCI "lakh".data], [.litCI "crore".data],
                [.litCI "per year".data], [.litCI "annually".data]]]],
   [.litCI "rs".data, opt [.lit ".".data], .reps clsSpace 0 none, .reps clsAmt 1 none],
   [.litCI "up to".data, .reps clsSpace 0 none, opt [.lit "₹".data], .reps clsAmt 1 none]]

/-- The `extractAmount` of the simpler variant. -/
def extractAmount (t : List Char) : List Char :=
  match amountPatterns.findSome? (fun p => wholeOf p t) with
  | some m => trimJS m
  | none => "Amount varies".data

/-- The three eligibility patterns of the simpler variant, in order. -/
def eligPatterns : List (List RElem) :=
  [[.litCI "eligibility".data, .reps clsColonSpace 0 none, rgrp [.reps clsNotDotNL 20 (some 100)]],
   [.litCI "eligible".data, .reps clsColonSpace 0 none, rgrp [.reps clsNotDotNL 20 (some 100)]],
   [.litCI "for".data, .reps clsSpace 1 none,
    rgrp [.reps clsNotDotNL 20 (some 100), .litCI "students".data]]]

/-- The `extractEligibility` of the simpler variant: `match[1].trim()` of the
first matching pattern. -/
def extractEligibility (t : List Char) : List Char :=
  match eligPatterns.findSome? (fun p => groupOf p t) with
  | some cap => trimJS cap
  | none => "Check official website".data

/-- The three deadline patterns of the simpler variant, in order (the month
pattern carries the `i` flag and has no capture group). -/
def deadlinePatterns : List (List RElem) :=
  [[.litCI "deadline".data, .reps clsColonSpace 0 none, rgrp [.reps clsNotDotNL 10 (some 50)]],
   [.litCI "apply by".data, .reps clsColonSpace 0 none, rgrp [.reps clsNotDotNL 10 (some 50)]],
   [ralts [[.litCI "January".data], [.litCI "February".data], [.litCI "March".data],
           [.litCI "April".data], [.litCI "May".data], [.litCI "June".data],
           [.litCI "July".data], [.litCI "August".data], [.litCI "September".data],
           [.litCI "October".data], [.litCI "November".data], [.litCI "December".data]],
    .reps clsSpace 1 none, .reps clsDigit 4 (some 4)]]

/-- The `extractDeadline` of the simpler variant: `match[1] || match[0]` of the
first matching pattern, without trimming. -/
def extractDeadline (t : List Char) : List Char :=
  match deadlinePatterns.findSome? (fun p => capOrWhole p t) with
  | some m => m
  | none => "Check website".data

/-- The `extractDescription` of the simpler variant: split on `/[.!?]/`, keep
sentences of length in `(30, 150)`, return the first one trimmed with a
period appended. -/
def extractDescription (t : List Char) : List Char :=
  let sentences := splitConsuming [.cls (.oneOf ['.', '!', '?'])] t
  let good := (sentences.filter (fun sen =>
    decide (30 < sen.length) && decide (sen.length < 150))).take 1
  match good with
  | g :: _ => trimJS g ++ ".".data
  | [] => "Scholarship opportunity available.".data

/-- The `/(https?:\/\/[^\s)]+)/` -/
def linkP : List RElem :=
  [rgrp [.lit "http".data, opt [.lit "s".data], .lit "://".data,
         .reps clsNotSpaceParen 1 none]]

/-- The `extractLink` of the simpler variant: the first bare URL token, with no
validation, defaulting to the portal URL. -/
def extractLink (t : List Char) : List Char :=
  (groupOf linkP t).getD portalURL

/-- The candidate record built for one section by `parseScholarships`. -/
def extractInfo (t : List Char) : Scholarship :=
  { name := extractName t
    amount := extractAmount t
    eligibility := extractEligibility t
    deadline := extractDeadline t
    description := extractDescription t
    link := extractLink t }

/-- The validation test of `parseScholarships`: a meaningful name longer
than ten characters mentioning scholarship, grant or award. -/
def validate (c : Scholarship) : Bool :=
  !c.name.isEmpty &&
    decide (10 < c.name.length) &&
    (includesB (lowerL c.name) "scholarship".data ||
     includesB (lowerL c.name) "grant".data ||
     includesB (lowerL c.name) "award".data)

/-- The fallback catalog of the simpler variant. -/
def fallback : List Scholarship :=
  [{ name := "National Scholarship Portal".data
     amount := "₹12,000 - ₹2,00,000 per year".data
     eligibility := "Various categories - merit and need based".data
     deadline := "October to December 2025".data
     description := "Government scholarship platform with multiple schemes for different student categories.".data
     link := "https://scholarships.gov.in".data },
   { name := "Post Matric Scholarship for SC/ST".data
     amount := "₹230 - ₹1,200 per month".data
     eligibility := "SC/ST students in higher education".data
     deadline := "November 2025".data
     description := "Central government scholarship for SC/ST students pursuing post-matric courses.".data
     link := "https://scholarships.gov.in".data },
   { name := "Merit cum Means Scholarship".data
     amount := "₹20,000 per year".data
     eligibility := "Family income below ₹2.5 lakh, 80%+ marks".data
     deadline := "December 2025".data
     description := "For meritorious students from economically weaker sections.".data
     link := "https://scholarships.gov.in".data }]

/-- The collection loop of `parseScholarships`: every section in order
(no early stop), skipping sections shorter than 50 characters (untrimmed),
validating the extracted candidate. -/
def collect : List (List Char) → List Scholarship → List Scholarship
  | [], acc => acc
  | sec :: rest, acc =>
    if sec.length < 50 then collect rest acc
    else
      let c := extractInfo sec
      if validate c then collect rest (acc ++ [c]) else collect rest acc

/-- The candidates accepted for an input, in document order. -/
def accepted (s : List Char) : List Scholarship := collect (splitSections s) []

/-- The `parseScholarships` of the simpler variant on a string input (on which
the body raises no exception). -/
def parseScholarships (s : List Char) : List Scholarship :=
  let acc := accepted s
  (if acc.isEmpty then fallback else acc).take 8

/-- The `parseScholarships` when an internal exception interrupts the `try`
block while section `k` is being processed: the `catch` only logs, so the
accepted candidates of the first `k` sections are returned truncated to
eight, and the fallback branch is skipped. -/
def parseFault (k : Nat) (s : List Char) : List Scholarship :=
  (collect ((splitSections s).take k) []).take 8

end Simple

/-! ## General lemmas -/

theorem includesB_iff {a b : List Char} : includesB a b = true ↔ b <:+: a := by
  simp [includesB]

theorem infix_map (f : Char → Char) {a b : List Char} (h : a <:+: b) :
    a.map f <:+: b.map f := by
  obtain ⟨u, v, rfl⟩ := h
  exact ⟨u.map f, v.map f, by simp⟩

theorem lowerL_isInfix {a b : List Char} (h : a <:+: b) : lowerL a <:+: lowerL b :=
  infix_map jsLower h

theorem slice_isInfix (s : List Char) (a b : Nat) : slice s a b <:+: s := by
  refine ⟨s.take a, s.drop (a + (b - a)), ?_⟩
  rw [slice, List.append_assoc, List.drop_take_append_drop, List.take_append_drop]

theorem trimJS_isInfix (l : List Char) : trimJS l <:+: l := by
  have h1 : l.dropWhile isJSSpace <:+ l := List.dropWhile_suffix _
  have h2 : ((l.dropWhile isJSSpace).reverse.dropWhile isJSSpace).reverse <+:
      l.dropWhile isJSSpace := by
    rw [← List.reverse_suffix]
    simpa using List.dropWhile_suffix (l := (l.dropWhile isJSSpace).reverse) isJSSpace
  exact (h2.isInfix).trans h1.isInfix

theorem stripArticle_isInfix (l : List Char) : stripArticle l <:+: l := by
  unfold stripArticle
  split
  · exact (List.drop_suffix 4 l).isInfix
  · split
    · exact (List.drop_suffix 2 l).isInfix
    · exact List.infix_refl l

theorem groupOf_isInfix {p : List RElem} {s c : List Char}
    (h : groupOf p s = some c) : c <:+: s := by
  unfold groupOf at h
  rcases hm : findMatch p s with _ | ⟨i, j, cap⟩ <;> rw [hm] at h
  · exact absurd h (by simp)
  · rcases cap with _ | ⟨a, b⟩
    · exact absurd h (by simp)
    · simp only [Option.some.injEq] at h
      exact h ▸ slice_isInfix s a b

theorem wholeOf_isInfix {p : List RElem} {s c : List Char}
    (h : wholeOf p s = some c) : c <:+: s := by
  unfold wholeOf at h
  rcases hm : findMatch p s with _ | ⟨i, j, cap⟩ <;> rw [hm] at h
  · exact absurd h (by simp)
  · simp only [Option.some.injEq] at h
    exact h ▸ slice_isInfix s i j

theorem capOrWhole_isInfix {p : List RElem} {s c : List Char}
    (h : capOrWhole p s = some c) : c <:+: s := by
  unfold capOrWhole at h
  rcases hm : findMatch p s with _ | ⟨i, j, cap⟩ <;> rw [hm] at h
  · exact absurd h (by simp)
  · rcases cap with _ | ⟨a, b⟩
    · simp only [Option.some.injEq] at h
      exact h ▸ slice_isInfix s i j
    · by_cases he : slice s a b = [] <;> simp only [he, if_true, if_false,
        Option.some.injEq, if_pos, if_neg, not_false_iff] at h
      · exact h ▸ slice_isInfix s i j
      · exact h ▸ slice_isInfix s a b

theorem findSome_mem {α β : Type} {f : α → Option β} :
    ∀ {l : List α} {x : β}, l.findSome? f = some x → ∃ a, a ∈ l ∧ f a = some x := by
  intro l
  induction l with
  | nil => intro x h; simp [List.findSome?] at h
  | cons a t ih =>
    intro x h
    rw [List.findSome?_cons] at h
    rcases hf : f a with _ | y <;> rw [hf] at h
    · obtain ⟨b, hb, hfb⟩ := ih h
      exact ⟨b, List.mem_cons_of_mem _ hb, hfb⟩
    · simp only [Option.some.injEq] at h
      exact ⟨a, List.mem_cons_self _ _, by simp [hf, h]⟩

/-! ## Keyword machinery -/

/-- The five domain keywords of the specification, lower-case. -/
def keywords : List (List Char) :=
  ["scholarship".data, "grant".data, "fellowship".data, "award".data, "scheme".data]

/-- The `l` mentions none of the five keywords, case-insensitively. -/
def KeywordFree (l : List Char) : Prop := ∀ kw ∈ keywords, ¬ kw <:+: lowerL l

instance (l : List Char) : Decidable (KeywordFree l) :=
  inferInstanceAs (Decidable (∀ kw ∈ keywords, ¬ kw <:+: lowerL l))

theorem KeywordFree.anti {a b : List Char} (hab : a <:+: b) (h : KeywordFree b) :
    KeywordFree a := fun kw hkw hin => h kw hkw (hin.trans (lowerL_isInfix hab))

/-! ## Characterisations of the two validators -/

theorem Rich.validate_iff_rich (c : Scholarship) :
    Rich.validate c = true ↔
      c.name ≠ [] ∧ 8 < c.name.length ∧ c.name.length < 200 ∧
      ¬ ("here are".data <:+: lowerL c.name) ∧
      ¬ ("following".data <:+: lowerL c.name) ∧
      ∃ kw ∈ keywords, kw <:+: lowerL c.name := by
  simp only [Rich.validate, Bool.and_eq_true, Bool.or_eq_true, Bool.not_eq_true',
    includesB, decide_eq_true_iff, decide_eq_false_iff_not, List.isEmpty_eq_false,
    keywords]
  constructor
  · rintro ⟨⟨⟨⟨⟨h1, h2⟩, h3⟩, h4⟩, h5⟩, h6⟩
    refine ⟨h1, h2, h3, h4, h5, ?_⟩
    simp only [List.mem_cons, List.not_mem_nil, or_false, exists_eq_or_imp,
      exists_eq_left]
    tauto
  · rintro ⟨h1, h2, h3, h4, h5, h6⟩
    refine ⟨⟨⟨⟨⟨h1, h2⟩, h3⟩, h4⟩, h5⟩, ?_⟩
    simp only [List.mem_cons, List.not_mem_nil, or_false, exists_eq_or_imp,
      exists_eq_left] at h6
    tauto

theorem Simple.validate_iff_simple (c : Scholarship) :
    Simple.validate c = true ↔
      c.name ≠ [] ∧ 10 < c.name.length ∧
      ("scholarship".data <:+: lowerL c.name ∨ "grant".data <:+: lowerL c.name ∨
       "award".data <:+: lowerL c.name) := by
  simp only [Simple.validate, Bool.and_eq_true, Bool.or_eq_true, Bool.not_eq_true',
    includesB, decide_eq_true_iff, List.isEmpty_eq_false]
  tauto

/-- Acceptance by either validator forces a keyword occurrence. -/
theorem validate_keyword {c : Scholarship}
    (h : Rich.validate c = true ∨ Simple.validate c = true) :
    ∃ kw ∈ keywords, kw <:+: lowerL c.name := by
  rcases h with h | h
  · exact ((Rich.validate_iff_rich c).mp h).2.2.2.2.2
  · obtain ⟨-, -, h3⟩ := (Simple.validate_iff_simple c).mp h
    rcases h3 with h3 | h3 | h3
    · exact ⟨"scholarship".data, by simp [keywords], h3⟩
    · exact ⟨"grant".data, by simp [keywords], h3⟩
    · exact ⟨"award".data, by simp [keywords], h3⟩

/-- A keyword occurrence in the lower-cased name forces a non-empty name. -/
theorem name_ne_nil_of_keyword {c : Scholarship}
    (h : ∃ kw ∈ keywords, kw <:+: lowerL c.name) : c.name ≠ [] := by
  obtain ⟨kw, hkw, hin⟩ := h
  intro hnil
  rw [hnil] at hin
  simp only [lowerL, List.map_nil] at hin
  have hk := List.eq_nil_of_infix_nil hin
  subst hk
  simp [keywords] at hkw

/-! ## Provenance of extracted names -/

theorem Rich.nameFromPattern_isInfix {p : List RElem} {t n : List Char}
    (h : Rich.nameFromPattern p t = some n) : n <:+: t := by
  unfold Rich.nameFromPattern at h
  rcases hg : groupOf p t with _ | cap <;> rw [hg] at h <;> dsimp only at h
  · exact absurd h (by simp)
  · by_cases he : cap = []
    · rw [if_pos he] at h; exact absurd h (by simp)
    · rw [if_neg he] at h
      split at h
      · simp only [Option.some.injEq] at h
        exact h ▸ ((stripArticle_isInfix (trimJS cap)).trans
          ((trimJS_isInfix cap).trans (groupOf_isInfix hg)))
      · exact absurd h (by simp)

theorem Rich.extractScholarshipName_cases (t : List Char) :
    Rich.extractScholarshipName t = Rich.educationalOpportunity ∨
      Rich.extractScholarshipName t <:+: t := by
  unfold Rich.extractScholarshipName
  rcases h1 : Rich.nameFromPattern Rich.nameP1 t with _ | n1
  · rcases h2 : Rich.nameFromPattern Rich.nameP2 t with _ | n2
    · rcases h3 : Rich.nameFromPattern Rich.nameP3 t with _ | n3
      · exact Or.inl rfl
      · exact Or.inr (Rich.nameFromPattern_isInfix h3)
    · exact Or.inr (Rich.nameFromPattern_isInfix h2)
  · exact Or.inr (Rich.nameFromPattern_isInfix h1)

/-- The fixed richer default name mentions no keyword. -/
theorem educationalOpportunity_keywordFree : KeywordFree Rich.educationalOpportunity := by
  decide

/-- On a keyword-free section, the richer candidate is always rejected. -/
theorem Rich.reject_of_keywordFree {t : List Char} (h : KeywordFree t) :
    Rich.validate (Rich.extractScholarshipInfo t) = false := by
  by_contra hval
  rw [Bool.not_eq_false] at hval
  have hkw := validate_keyword (Or.inl hval)
  obtain ⟨kw, hkwm, hin⟩ := hkw
  have hname : (Rich.extractScholarshipInfo t).name = Rich.extractScholarshipName t := rfl
  rw [hname] at hin
  rcases Rich.extractScholarshipName_cases t with hc | hc
  · rw [hc] at hin
    exact educationalOpportunity_keywordFree kw hkwm hin
  · exact (h.anti hc) kw hkwm hin

/-! ## Lemmas about the collection loops -/

theorem Rich.mem_collect_rich {r : Scholarship} :
    ∀ {secs : List (List Char)} {acc : List Scholarship},
      r ∈ Rich.collect secs acc →
      r ∈ acc ∨ ∃ sec ∈ secs,
        r = Rich.extractScholarshipInfo (trimJS sec) ∧ Rich.validate r = true := by
  intro secs
  induction secs with
  | nil => intro acc h; exact Or.inl h
  | cons sec rest ih =>
    intro acc h
    rw [Rich.collect] at h
    by_cases h10 : acc.length < 10
    · rw [if_pos h10] at h
      by_cases hlen : (trimJS sec).length < 100
      · rw [if_pos hlen] at h
        rcases ih h with hacc | ⟨s2, hs2, heq, hval⟩
        · exact Or.inl hacc
        · exact Or.inr ⟨s2, List.mem_cons_of_mem _ hs2, heq, hval⟩
      · rw [if_neg hlen] at h
        dsimp only at h
        by_cases hval : Rich.validate (Rich.extractScholarshipInfo (trimJS sec)) = true
        · rw [if_pos hval] at h
          rcases ih h with hacc | ⟨s2, hs2, heq, hv2⟩
          · rcases List.mem_append.mp hacc with hl | hr
            · exact Or.inl hl
            · have : r = Rich.extractScholarshipInfo (trimJS sec) := by
                simpa using hr
              exact Or.inr ⟨sec, List.mem_cons_self _ _, this, this ▸ hval⟩
          · exact Or.inr ⟨s2, List.mem_cons_of_mem _ hs2, heq, hv2⟩
        · rw [if_neg hval] at h
          rcases ih h with hacc | ⟨s2, hs2, heq, hv2⟩
          · exact Or.inl hacc
          · exact Or.inr ⟨s2, List.mem_cons_of_mem _ hs2, heq, hv2⟩
    · rw [if_neg h10] at h
      exact Or.inl h

theorem Rich.collect_eq_of_reject :
    ∀ {secs : List (List Char)} {acc : List Scholarship},
      (∀ sec ∈ secs, (trimJS sec).length < 100 ∨
        Rich.validate (Rich.extractScholarshipInfo (trimJS sec)) = false) →
      Rich.collect secs acc = acc := by
  intro secs
  induction secs with
  | nil => intro acc _; rfl
  | cons sec rest ih =>
    intro acc h
    rw [Rich.collect]
    by_cases h10 : acc.length < 10
    · rw [if_pos h10]
      rcases h sec (List.mem_cons_self _ _) with hlen | hval
      · rw [if_pos hlen]
        exact ih (fun s hs => h s (List.mem_cons_of_mem _ hs))
      · by_cases hlen : (trimJS sec).length < 100
        · rw [if_pos hlen]
          exact ih (fun s hs => h s (List.mem_cons_of_mem _ hs))
        · rw [if_neg hlen]
          dsimp only
          rw [hval]
          simp only [Bool.false_eq_true, if_false]
          exact ih (fun s hs => h s (List.mem_cons_of_mem _ hs))
    · rw [if_neg h10]

theorem Rich.collect_length_le :
    ∀ {secs : List (List Char)} {acc : List Scholarship},
      acc.length ≤ 10 → (Rich.collect secs acc).length ≤ 10 := by
  intro secs
  induction secs with
  | nil => intro acc h; exact h
  | cons sec rest ih =>
    intro acc h
    rw [Rich.collect]
    by_cases h10 : acc.length < 10
    · rw [if_pos h10]
      by_cases hlen : (trimJS sec).length < 100
      · rw [if_pos hlen]; exact ih h
      · rw [if_neg hlen]
        dsimp only
        split
        · exact ih (by simp; omega)
        · exact ih h
    · rw [if_neg h10]; exact h

theorem Simple.mem_collect_simple {r : Scholarship} :
    ∀ {secs : List (List Char)} {acc : List Scholarship},
      r ∈ Simple.collect secs acc →
      r ∈ acc ∨ ∃ sec ∈ secs,
        r = Simple.extractInfo sec ∧ Simple.validate r = true := by
  intro secs
  induction secs with
  | nil => intro acc h; exact Or.inl h
  | cons sec rest ih =>
    intro acc h
    rw [Simple.collect] at h
    by_cases hlen : sec.length < 50
    · rw [if_pos hlen] at h
      rcases ih h with hacc | ⟨s2, hs2, heq, hval⟩
      · exact Or.inl hacc
      · exact Or.inr ⟨s2, List.mem_cons_of_mem _ hs2, heq, hval⟩
    · rw [if_neg hlen] at h
      dsimp only at h
      by_cases hval : Simple.validate (Simple.extractInfo sec) = true
      · rw [if_pos hval] at h
        rcases ih h with hacc | ⟨s2, hs2, heq, hv2⟩
        · rcases List.mem_append.mp hacc with hl | hr
          · exact Or.inl hl
          · have : r = Simple.extractInfo sec := by simpa using hr
            exact Or.inr ⟨sec, List.mem_cons_self _ _, this, this ▸ hval⟩
        · exact Or.inr ⟨s2, List.mem_cons_of_mem _ hs2, heq, hv2⟩
      · rw [if_neg hval] at h
        rcases ih h with hacc | ⟨s2, hs2, heq, hv2⟩
        · exact Or.inl hacc
        · exact Or.inr ⟨s2, List.mem_cons_of_mem _ hs2, heq, hv2⟩

/-! ## Link validity (richer variant) -/

theorem Rich.extractLink_valid {t l : List Char}
    (h : Rich.extractLink t = some l) : isValidURL l = true := by
  unfold Rich.extractLink at h
  obtain ⟨p, _, hp⟩ := findSome_mem h
  rcases hc : capOrWhole p t with _ | m <;> rw [hc] at hp <;> dsimp only at hp
  · exact absurd hp (by simp)
  · split at hp <;> split at hp <;>
      first
      | (simp only [Option.some.injEq] at hp; subst hp; assumption)
      | exact absurd hp (by simp)

theorem Rich.linkField_valid (t : List Char) :
    isValidURL ((Rich.extractLink t).getD portalURL) = true := by
  rcases h : Rich.extractLink t with _ | l
  · simp only [Option.getD_none]
    decide
  · simp only [Option.getD_some]
    exact Rich.extractLink_valid h

/-! ## Membership in the parsed output -/

theorem Rich.mem_parse_rich {s : List Char} {r : Scholarship}
    (h : r ∈ Rich.parseScholarshipResponse s) :
    r ∈ Rich.fallback ∨ ∃ sec ∈ Rich.splitSections s,
      r = Rich.extractScholarshipInfo (trimJS sec) ∧ Rich.validate r = true := by
  unfold Rich.parseScholarshipResponse at h
  have h2 := List.mem_of_mem_take h
  split at h2
  · exact Or.inl h2
  · rcases Rich.mem_collect_rich h2 with hacc | hsec
    · exact absurd hacc (List.not_mem_nil r)
    · exact Or.inr hsec

theorem Simple.mem_parse_simple {s : List Char} {r : Scholarship}
    (h : r ∈ Simple.parseScholarships s) :
    r ∈ Simple.fallback ∨ ∃ sec ∈ Simple.splitSections s,
      r = Simple.extractInfo sec ∧ Simple.validate r = true := by
  unfold Simple.parseScholarships at h
  have h2 := List.mem_of_mem_take h
  split at h2
  · exact Or.inl h2
  · rcases Simple.mem_collect_simple h2 with hacc | hsec
    · exact absurd hacc (List.not_mem_nil r)
    · exact Or.inr hsec

/-! ## Lemmas about the lookahead split -/

theorem cutFrom_join (s : List Char) :
    ∀ (ps : List Nat) (a : Nat), List.Chain (fun x y : Nat => x ≤ y) a ps →
      (cutFrom s a ps).flatten = s.drop a := by
  intro ps
  induction ps with
  | nil => intro a _; simp [cutFrom]
  | cons p rest ih =>
    intro a hchain
    rcases hchain with _ | ⟨hap, hchain2⟩
    rw [cutFrom, List.flatten_cons, ih p hchain2]
    have h2 : List.drop p s = List.drop (a + (p - a)) s := by
      rw [show a + (p - a) = p by omega]
    rw [h2, List.drop_take_append_drop]

theorem chain_le_of_pairwise_lt :
    ∀ (l : List Nat) (a : Nat), l.Pairwise (fun x y : Nat => x < y) →
      (∀ b ∈ l, a ≤ b) → List.Chain (fun x y : Nat => x ≤ y) a l := by
  intro l
  induction l with
  | nil => intro a _ _; exact List.Chain.nil
  | cons p rest ih =>
    intro a hp hb
    rw [List.pairwise_cons] at hp
    exact List.Chain.cons (hb p (List.mem_cons_self _ _))
      (ih p hp.2 (fun b hbm => Nat.le_of_lt (hp.1 b hbm)))

theorem Rich.splitPositions_pairwise (s : List Char) :
    (Rich.splitPositions s).Pairwise (fun x y : Nat => x < y) :=
  (List.pairwise_lt_range s.length).filter _

/-- Nothing is consumed by the richer lookahead split: the produced
sections concatenate back to the input. -/
theorem Rich.splitSections_join (s : List Char) :
    (Rich.splitSections s).flatten = s := by
  unfold Rich.splitSections
  rw [cutFrom_join s (Rich.splitPositions s) 0
    (chain_le_of_pairwise_lt _ 0 (Rich.splitPositions_pairwise s)
      (fun b _ => Nat.zero_le b))]
  rfl

/-- Every cut position of the richer split is a position where one of the
boundary-marker lookahead alternatives matches. -/
theorem Rich.splitPositions_marker {s : List Char} {p : Nat}
    (h : p ∈ Rich.splitPositions s) : lookAt Rich.splitAlts s p = true := by
  unfold Rich.splitPositions at h
  have h2 := List.of_mem_filter h
  simp only [Bool.and_eq_true] at h2
  exact h2.2

/-! ## Output bounds shared by several claims -/

theorem take8_bounds {l : List Scholarship} (h : l ≠ []) :
    1 ≤ (l.take 8).length ∧ (l.take 8).length ≤ 8 := by
  rw [List.length_take]
  have : 0 < l.length := List.length_pos.mpr h
  omega

theorem Rich.parse_bounds_rich (s : List Char) :
    1 ≤ (Rich.parseScholarshipResponse s).length ∧
      (Rich.parseScholarshipResponse s).length ≤ 8 := by
  unfold Rich.parseScholarshipResponse
  dsimp only
  split
  · exact take8_bounds (by simp [Rich.fallback])
  · next h =>
    simp only [Bool.not_eq_true, List.isEmpty_eq_false] at h
    exact take8_bounds h

theorem Simple.parse_bounds_simple (s : List Char) :
    1 ≤ (Simple.parseScholarships s).length ∧
      (Simple.parseScholarships s).length ≤ 8 := by
  unfold Simple.parseScholarships
  dsimp only
  split
  · exact take8_bounds (by simp [Simple.fallback])
  · next h =>
    simp only [Bool.not_eq_true, List.isEmpty_eq_false] at h
    exact take8_bounds h

/-! ## Concrete inputs used by witnesses and counterexamples -/

/-- The conversational-filler scenario input of the specification. -/
def fillerInput : List Char :=
  "Thank you for your question. Here is some general advice about funding your education.".data

/-- The single-scholarship scenario input of the specification. -/
def scenarioInput : List Char :=
  "1. National Merit Scholarship\nAmount: ₹50,000 per year\nEligibility: for economically weaker students\nDeadline: December 31, 2025\nhttps://example.gov.in/apply".data

/-! ## Claim C1 -/

/-- C1: for every input string, both parsing orchestrators
(`parseScholarshipResponse` in the richer variant and `parseScholarships`
in the simpler one) return an ordered sequence of between one and eight
`Scholarship` records — never zero and never more than eight. -/
theorem parse_returns_one_to_eight (s : List Char) :
    (1 ≤ (Rich.parseScholarshipResponse s).length ∧
      (Rich.parseScholarshipResponse s).length ≤ 8) ∧
    (1 ≤ (Simple.parseScholarships s).length ∧
      (Simple.parseScholarships s).length ≤ 8) :=
  ⟨Rich.parse_bounds_rich s, Simple.parse_bounds_simple s⟩

/-! ## Claim C2 -/

/-- C2 counterexample: when an internal exception interrupts the `try`
block at the very first section, both orchestrators return the empty list,
not the (non-empty) fallback catalog — the exception is not treated like
"zero validated segments", whose path would substitute the catalog. -/
theorem fault_path_returns_empty_not_fallback :
    Rich.parseFault 0 fillerInput = [] ∧ Rich.fallback ≠ [] ∧
    Simple.parseFault 0 fillerInput = [] ∧ Simple.fallback ≠ [] :=
  ⟨rfl, by simp [Rich.fallback], rfl, by simp [Simple.fallback]⟩

/-- C2 (amended): an internal exception during parsing is caught at the
orchestrator boundary and the orchestrator never raises to its caller, but
the exception path is not the fallback path: the records accepted before
the fault are returned truncated to eight, the fallback substitution inside
the `try` block is skipped, and a fault before any acceptance yields an
empty result — whereas the non-fault path never returns an empty list. -/
theorem fault_path_skips_fallback (k : Nat) (s : List Char) :
    Rich.parseFault k s = (Rich.collect ((Rich.splitSections s).take k) []).take 8 ∧
    Simple.parseFault k s = (Simple.collect ((Simple.splitSections s).take k) []).take 8 ∧
    (Rich.collect ((Rich.splitSections s).take k) [] = [] → Rich.parseFault k s = []) ∧
    (Simple.collect ((Simple.splitSections s).take k) [] = [] → Simple.parseFault k s = []) ∧
    Rich.parseScholarshipResponse s ≠ [] ∧ Simple.parseScholarships s ≠ [] := by
  refine ⟨rfl, rfl, ?_, ?_, ?_, ?_⟩
  · intro h; unfold Rich.parseFault; rw [h]; rfl
  · intro h; unfold Simple.parseFault; rw [h]; rfl
  · intro hnil
    have hb := (Rich.parse_bounds_rich s).1
    rw [hnil] at hb
    simp at hb
  · intro hnil
    have hb := (Simple.parse_bounds_simple s).1
    rw [hnil] at hb
    simp at hb

/-- Witness for C2: at a concrete input and fault position, nothing was
accepted before the fault, the fault path returns the empty list, and the
non-fault path on the same input is non-empty. -/
theorem fault_path_skips_fallback_witness :
    Rich.collect ((Rich.splitSections fillerInput).take 0) [] = [] ∧
    Rich.parseFault 0 fillerInput = [] ∧
    Rich.parseScholarshipResponse fillerInput ≠ [] :=
  ⟨rfl, (fault_path_skips_fallback 0 fillerInput).2.2.1 rfl,
    (fault_path_skips_fallback 0 fillerInput).2.2.2.2.1⟩

/-! ## Claim C3 -/

/-- C3: every record surfaced by either orchestrator — whether parsed from
the input or taken from the fallback catalog — has a non-empty name that
contains at least one of the keywords scholarship, grant, fellowship,
award, scheme, compared case-insensitively; candidates violating this are
rejected by validation and never surfaced. -/
theorem returned_names_keyword_invariant (s : List Char) (r : Scholarship)
    (h : r ∈ Rich.parseScholarshipResponse s ∨ r ∈ Simple.parseScholarships s) :
    r.name ≠ [] ∧ ∃ kw ∈ keywords, kw <:+: lowerL r.name := by
  have hkw : ∃ kw ∈ keywords, kw <:+: lowerL r.name := by
    rcases h with h | h
    · rcases Rich.mem_parse_rich h with hf | ⟨sec, hsec, heq, hval⟩
      · have hall : ∀ x ∈ Rich.fallback, ∃ kw ∈ keywords, kw <:+: lowerL x.name := by
          decide
        exact hall r hf
      · exact validate_keyword (Or.inl hval)
    · rcases Simple.mem_parse_simple h with hf | ⟨sec, hsec, heq, hval⟩
      · have hall : ∀ x ∈ Simple.fallback, ∃ kw ∈ keywords, kw <:+: lowerL x.name := by
          decide
        exact hall r hf
      · exact validate_keyword (Or.inr hval)
  exact ⟨name_ne_nil_of_keyword hkw, hkw⟩

/-- Witness for C3 at the empty input and the first fallback record. -/
theorem returned_names_keyword_invariant_witness :
    (Rich.fallback.getD 0 default).name ≠ [] ∧
    ∃ kw ∈ keywords, kw <:+: lowerL (Rich.fallback.getD 0 default).name :=
  returned_names_keyword_invariant [] (Rich.fallback.getD 0 default)
    (Or.inl (by decide))

/-! ## Claim C4 -/

/-- An input whose only URL token, `http://#`, is rejected by `new URL`
(an empty host after the special scheme) but returned verbatim by the
simpler variant. -/
def invalidLinkInput : List Char :=
  "National Merit Scholarship for students of excellence visit http://# now".data

/-- C4 counterexample: in the simpler variant the single returned record
carries the syntactically malformed link `http://#` — the extractor never
validates its candidate. -/
theorem simple_link_invalid_url_example :
    (Simple.parseScholarships invalidLinkInput).map (fun r => r.link) =
      ["http://#".data] ∧
    isValidURL "http://#".data = false := by
  constructor
  · decide
  · decide

/-- C4 (amended): in the richer variant every returned record carries a
link accepted by URL validation — `extractLink` validates each candidate
with `new URL`, falls through to the next pattern on failure, and the
caller substitutes the canonical portal URL when every pattern fails.  The
simpler variant instead returns its first `https?://` token without any
validation, and substitutes the portal URL only when no token occurs. -/
theorem link_validation_amended (s t : List Char) (r : Scholarship)
    (h : r ∈ Rich.parseScholarshipResponse s) :
    isValidURL r.link = true ∧
    (groupOf Simple.linkP t = none → Simple.extractLink t = portalURL) := by
  constructor
  · rcases Rich.mem_parse_rich h with hf | ⟨sec, hsec, heq, hval⟩
    · have hall : ∀ x ∈ Rich.fallback, isValidURL x.link = true := by decide
      exact hall r hf
    · subst heq
      exact Rich.linkField_valid (trimJS sec)
  · intro hnone
    unfold Simple.extractLink
    rw [hnone]
    rfl

/-- Witness for C4 at the empty input, the first fallback record and an
empty simpler-variant segment. -/
theorem link_validation_amended_witness :
    isValidURL (Rich.fallback.getD 0 default).link = true ∧
    (groupOf Simple.linkP [] = none → Simple.extractLink [] = portalURL) :=
  link_validation_amended [] [] (Rich.fallback.getD 0 default) (by decide)

/-! ## Claim C5 -/

/-- C5 counterexample: the specification's own conversational-filler
scenario input bears no keyword at all, yet the simpler variant does not
return its fallback catalog — the segment is long enough, no name pattern
matches, and the default name "Educational Grant" passes validation. -/
theorem keyword_free_input_not_fallback_simple :
    KeywordFree fillerInput ∧
    50 ≤ fillerInput.length ∧
    Simple.parseScholarships fillerInput ≠ Simple.fallback := by
  refine ⟨by decide, by decide, by decide⟩

/-- C5 (amended): in the richer variant, an input none of whose sections
is both long enough (at least 100 characters after trimming) and
keyword-bearing parses to the fallback catalog exactly, in its fixed
order.  (The simpler variant violates the claim: a keyword-free segment of
50 or more characters is accepted under the default name "Educational
Grant".) -/
theorem keyword_free_input_yields_fallback_rich (s : List Char)
    (h : ∀ sec ∈ Rich.splitSections s, (trimJS sec).length < 100 ∨ KeywordFree sec) :
    Rich.parseScholarshipResponse s = Rich.fallback := by
  have hacc : Rich.accepted s = [] := by
    unfold Rich.accepted
    apply Rich.collect_eq_of_reject
    intro sec hsec
    rcases h sec hsec with hl | hkf
    · exact Or.inl hl
    · exact Or.inr (Rich.reject_of_keywordFree (hkf.anti (trimJS_isInfix sec)))
  unfold Rich.parseScholarshipResponse
  rw [hacc]
  rfl

/-- Witness for C5 at the conversational-filler input (its only section is
shorter than 100 characters once trimmed). -/
theorem keyword_free_input_yields_fallback_rich_witness :
    (∀ sec ∈ Rich.splitSections fillerInput,
      (trimJS sec).length < 100 ∨ KeywordFree sec) ∧
    Rich.parseScholarshipResponse fillerInput = Rich.fallback :=
  ⟨by decide, keyword_free_input_yields_fallback_rich fillerInput (by decide)⟩

/-! ## Claim C6 -/

/-- Modelled from the words of the claim, for comparison with the source
validators: name present, at least 8 characters (10 in the simpler
variant), at most 200 characters, free of "here are" and "following"
(richer variant only), and bearing one of the five keywords. -/
def claimValidatorRich (c : Scholarship) : Prop :=
  c.name ≠ [] ∧ 8 ≤ c.name.length ∧ c.name.length ≤ 200 ∧
  ¬ ("here are".data <:+: lowerL c.name) ∧
  ¬ ("following".data <:+: lowerL c.name) ∧
  ∃ kw ∈ keywords, kw <:+: lowerL c.name

/-- Modelled from the words of the claim (simpler variant). -/
def claimValidatorSimple (c : Scholarship) : Prop :=
  c.name ≠ [] ∧ 10 ≤ c.name.length ∧ c.name.length ≤ 200 ∧
  ∃ kw ∈ keywords, kw <:+: lowerL c.name

instance (c : Scholarship) : Decidable (claimValidatorSimple c) :=
  inferInstanceAs (Decidable (_ ∧ _ ∧ _ ∧ ∃ kw ∈ keywords, kw <:+: lowerL c.name))

instance (c : Scholarship) : Decidable (claimValidatorRich c) :=
  inferInstanceAs (Decidable (_ ∧ _ ∧ _ ∧ _ ∧ _ ∧ ∃ kw ∈ keywords, kw <:+: lowerL c.name))

/-- A candidate whose name mentions only the keyword "fellowship". -/
def fellowshipCandidate : Scholarship :=
  { name := "International Fellowship".data, amount := [], eligibility := [],
    deadline := [], description := [], link := [] }

/-- C6 counterexample: the claimed acceptance predicate holds of a
candidate named "International Fellowship", yet the simpler validator
rejects it — its keyword set is only {scholarship, grant, award}. -/
theorem validator_iff_claim_false_example :
    claimValidatorSimple fellowshipCandidate ∧
    Simple.validate fellowshipCandidate = false := by
  constructor
  · decide
  · decide

/-- C6 (amended): the richer validator accepts a candidate if and only if
its name is non-empty, strictly longer than 8 and strictly shorter than
200 characters, free of the phrases "here are" and "following"
(case-insensitively), and bears one of the five keywords
(case-insensitively); the simpler validator accepts if and only if the
name is non-empty, strictly longer than 10 characters — with no upper
bound and no phrase exclusion — and bears one of scholarship, grant or
award (case-insensitively). -/
theorem validator_acceptance_characterisation (c : Scholarship) :
    (Rich.validate c = true ↔
      c.name ≠ [] ∧ 8 < c.name.length ∧ c.name.length < 200 ∧
      ¬ ("here are".data <:+: lowerL c.name) ∧
      ¬ ("following".data <:+: lowerL c.name) ∧
      ∃ kw ∈ keywords, kw <:+: lowerL c.name) ∧
    (Simple.validate c = true ↔
      c.name ≠ [] ∧ 10 < c.name.length ∧
      ("scholarship".data <:+: lowerL c.name ∨
       "grant".data <:+: lowerL c.name ∨
       "award".data <:+: lowerL c.name)) :=
  ⟨Rich.validate_iff_rich c, Simple.validate_iff_simple c⟩

/-! ## Claim C7 -/

/-- Modelled from the words of the claim, for comparison with the source
extractors: take the first match across the ordered pattern list, trim it,
strip a leading article, gate the length within [10, 150] in the richer
variant (placeholder on gate failure), unconditionally accept in the
simpler variant, placeholder when nothing matches. -/
def claimNameRich (t : List Char) : List Char :=
  match [Rich.nameP1, Rich.nameP2, Rich.nameP3].findSome? (fun p => groupOf p t) with
  | some cap =>
    let n := stripArticle (trimJS cap)
    if 10 ≤ n.length ∧ n.length ≤ 150 then n else Rich.educationalOpportunity
  | none => Rich.educationalOpportunity

/-- Modelled from the words of the claim (simpler variant): first match
wins, article stripped, accepted unconditionally. -/
def claimNameSimple (t : List Char) : List Char :=
  match [Simple.nameP1, Simple.nameP2].findSome? (fun p => groupOf p t) with
  | some cap => stripArticle (trimJS cap)
  | none => Simple.educationalGrant

/-- A segment whose best name match starts with the article "The ". -/
def articleNameInput : List Char := "The Zonal Merit Grant fund".data

/-- C7 counterexample: on a match that begins with "The ", the simpler
extractor keeps the article, while the claimed behaviour strips it. -/
theorem name_extractor_claim_false_example :
    Simple.extractName articleNameInput = "The Zonal Merit Grant".data ∧
    claimNameSimple articleNameInput = "Zonal Merit Grant".data ∧
    Simple.extractName articleNameInput ≠ claimNameSimple articleNameInput := by
  refine ⟨by decide, by decide, by decide⟩

/-- The richer name extraction restated with its pattern list folded by
first-success, making the corrected orchestration explicit: a pattern whose
gated result fails does not stop the scan — later patterns are still
tried. -/
def amendedNameRich (t : List Char) : List Char :=
  ([Rich.nameP1, Rich.nameP2, Rich.nameP3].findSome?
    (fun p => Rich.nameFromPattern p t)).getD Rich.educationalOpportunity

/-- The simpler name extraction restated the same way: the first pattern
match is returned trimmed, with no article stripping and no length gate. -/
def amendedNameSimple (t : List Char) : List Char :=
  (([Simple.nameP1, Simple.nameP2].findSome? (fun p => groupOf p t)).map
    trimJS).getD Simple.educationalGrant

/-- C7 (amended): the richer extractor tries its three patterns in order;
a match with a non-empty group is trimmed and stripped of a leading
"The "/"A " article and returned only when its length lies strictly
between 10 and 150, otherwise the scan continues with the next pattern,
defaulting to "Educational Opportunity"; the simpler extractor returns the
first pattern's capture trimmed — no article stripping, no length gate —
defaulting to "Educational Grant". -/
theorem name_extractor_behaviour (t : List Char) :
    Rich.extractScholarshipName t = amendedNameRich t ∧
    Simple.extractName t = amendedNameSimple t := by
  constructor
  · unfold Rich.extractScholarshipName amendedNameRich
    rcases h1 : Rich.nameFromPattern Rich.nameP1 t with _ | n1 <;>
      rcases h2 : Rich.nameFromPattern Rich.nameP2 t with _ | n2 <;>
        rcases h3 : Rich.nameFromPattern Rich.nameP3 t with _ | n3 <;>
          simp [List.findSome?, h1, h2, h3]
  · unfold Simple.extractName amendedNameSimple
    rcases h1 : groupOf Simple.nameP1 t with _ | n1 <;>
      rcases h2 : groupOf Simple.nameP2 t with _ | n2 <;>
        simp [List.findSome?, h1, h2]

/-! ## Claim C8 -/

/-- An input starting with a numbered-item marker. -/
def numberedInput : List Char := "1. Grant x".data

/-- C8 counterexample: the simpler segmenter consumes its boundary marker —
the numbered-item marker `1.` is removed, the following segment does not
retain it, and the produced segments no longer concatenate to the input. -/
theorem simple_split_consumes_marker_example :
    Simple.splitSections numberedInput = [[], " Grant x".data] ∧
    (Simple.splitSections numberedInput).flatten ≠ numberedInput := by
  constructor
  · decide
  · decide

/-- C8 (amended): the richer segmenter splits with lookahead semantics —
nothing is consumed, the produced segments concatenate back to the exact
input, and every cut position is a position where one of the
boundary-marker alternatives matches (so each later segment retains its
leading marker); the simpler segmenter instead consumes its separators and
removes them from the segments. -/
theorem rich_split_lookahead_semantics (s : List Char) :
    (Rich.splitSections s).flatten = s ∧
    ∀ p ∈ Rich.splitPositions s, lookAt Rich.splitAlts s p = true :=
  ⟨Rich.splitSections_join s, fun _ hp => Rich.splitPositions_marker hp⟩

/-- An input with an interior heading marker. -/
def headingInput : List Char := "a\n## b".data

/-- Witness for C8: on a concrete input, the sections concatenate to the
input and the single cut position carries a matching boundary marker. -/
theorem rich_split_lookahead_semantics_witness :
    (Rich.splitSections headingInput).flatten = headingInput ∧
    lookAt Rich.splitAlts headingInput 1 = true :=
  ⟨(rich_split_lookahead_semantics headingInput).1,
    (rich_split_lookahead_semantics headingInput).2 1 (by decide)⟩

/-! ## Claim C9 -/

/-- Eleven well-formed 50-character scholarship segments joined by the
consumed `**` separator of the simpler variant. -/
def elevenSegmentInput : List Char :=
  "Zzzzz zzzzz zzzzz zzzzz zzzzz zzzzz zzzzz zz Grant**Zzzzz zzzzz zzzzz zzzzz zzzzz zzzzz zzzzz zz Grant**Zzzzz zzzzz zzzzz zzzzz zzzzz zzzzz zzzzz zz Grant**Zzzzz zzzzz zzzzz zzzzz zzzzz zzzzz zzzzz zz Grant**Zzzzz zzzzz zzzzz zzzzz zzzzz zzzzz zzzzz zz Grant**Zzzzz zzzzz zzzzz zzzzz zzzzz zzzzz zzzzz zz Grant**Zzzzz zzzzz zzzzz zzzzz zzzzz zzzzz zzzzz zz Grant**Zzzzz zzzzz zzzzz zzzzz zzzzz zzzzz zzzzz zz Grant**Zzzzz zzzzz zzzzz zzzzz zzzzz zzzzz zzzzz zz Grant**Zzzzz zzzzz zzzzz zzzzz zzzzz zzzzz zzzzz zz Grant**Zzzzz zzzzz zzzzz zzzzz zzzzz zzzzz zzzzz zz Grant".data

/-- C9 counterexample: the simpler orchestrator has no early stop — on an
input with eleven accepted segments its accepted collection exceeds ten,
contradicting the claimed stop once the accepted count reaches ten. -/
theorem simple_collect_exceeds_ten_example :
    10 < (Simple.accepted elevenSegmentInput).length := by
  decide

/-- C9 (amended): the richer orchestrator processes segments in document
order and stops scanning once the accepted count reaches ten, so its
accepted collection never exceeds ten; the simpler orchestrator scans
every segment with no such stop; both truncate to the first eight accepted
candidates (in document order) on return, so the output never exceeds
eight records. -/
theorem orchestrator_bounds_amended (s : List Char) :
    (Rich.accepted s).length ≤ 10 ∧
    (Rich.parseScholarshipResponse s).length ≤ 8 ∧
    (Simple.parseScholarships s).length ≤ 8 ∧
    (Rich.accepted s ≠ [] →
      Rich.parseScholarshipResponse s = (Rich.accepted s).take 8) ∧
    (Simple.accepted s ≠ [] →
      Simple.parseScholarships s = (Simple.accepted s).take 8) := by
  refine ⟨Rich.collect_length_le (by simp), (Rich.parse_bounds_rich s).2,
    (Simple.parse_bounds_simple s).2, ?_, ?_⟩
  · intro hne
    unfold Rich.parseScholarshipResponse
    dsimp only
    rw [if_neg (by simp [List.isEmpty_iff, hne])]
  · intro hne
    unfold Simple.parseScholarships
    dsimp only
    rw [if_neg (by simp [List.isEmpty_iff, hne])]

/-- Witness for C9 at the specification's scenario input, on which both
variants accept one candidate. -/
theorem orchestrator_bounds_amended_witness :
    Rich.accepted scenarioInput ≠ [] ∧ Simple.accepted scenarioInput ≠ [] ∧
    Rich.parseScholarshipResponse scenarioInput =
      (Rich.accepted scenarioInput).take 8 ∧
    Simple.parseScholarships scenarioInput =
      (Simple.accepted scenarioInput).take 8 :=
  ⟨by decide, by decide,
    (orchestrator_bounds_amended scenarioInput).2.2.2.1 (by decide),
    (orchestrator_bounds_amended scenarioInput).2.2.2.2 (by decide)⟩

/-! ## Claim C10 -/

/-- C10 counterexample: the simpler default name "Educational Grant" has 17
characters, not 16 as the claim states. -/
theorem educational_grant_not_sixteen_chars :
    Simple.extractName [] = Simple.educationalGrant ∧
    Simple.educationalGrant.length = 17 ∧
    ¬ Simple.educationalGrant.length = 16 := by
  refine ⟨by decide, by decide, by decide⟩

/-- C10 (amended): in the simpler variant, on any segment of at least 50
characters on which neither name pattern matches, the extractor falls back
to "Educational Grant" (17 characters, bearing the keyword grant), which
passes that variant's validator, so the segment always produces an
accepted record — processing such a segment alone appends exactly its
candidate to the accepted collection. -/
theorem patternless_segment_accepted_simple (s : List Char)
    (h50 : 50 ≤ s.length)
    (h1 : groupOf Simple.nameP1 s = none)
    (h2 : groupOf Simple.nameP2 s = none) :
    Simple.extractName s = Simple.educationalGrant ∧
    Simple.educationalGrant.length = 17 ∧
    (∃ kw ∈ keywords, kw <:+: lowerL Simple.educationalGrant) ∧
    Simple.validate (Simple.extractInfo s) = true ∧
    Simple.collect [s] [] = [Simple.extractInfo s] := by
  have hname : Simple.extractName s = Simple.educationalGrant := by
    unfold Simple.extractName
    rw [h1, h2]
  have hinfo : (Simple.extractInfo s).name = Simple.educationalGrant := by
    show Simple.extractName s = Simple.educationalGrant
    exact hname
  have hval : Simple.validate (Simple.extractInfo s) = true := by
    rw [Simple.validate_iff_simple, hinfo]
    refine ⟨by decide, by decide, ?_⟩
    exact Or.inr (Or.inl (by decide))
  refine ⟨hname, by decide, ⟨"grant".data, by decide, by decide⟩, hval, ?_⟩
  rw [Simple.collect, if_neg (by omega)]
  dsimp only
  rw [hval]
  rfl

/-- A 60-character lower-case segment on which neither name pattern can
match (both require an upper-case letter). -/
def lowercaseInput : List Char :=
  "zzzzz zzzzz zzzzz zzzzz zzzzz zzzzz zzzzz zzzzz zzzzz zzzzz".data

/-- Witness for C10 at a concrete patternless segment. -/
theorem patternless_segment_accepted_simple_witness :
    50 ≤ lowercaseInput.length ∧
    Simple.extractName lowercaseInput = Simple.educationalGrant ∧
    Simple.validate (Simple.extractInfo lowercaseInput) = true ∧
    Simple.collect [lowercaseInput] [] = [Simple.extractInfo lowercaseInput] := by
  have h := patternless_segment_accepted_simple lowercaseInput
    (by decide) (by decide) (by decide)
  exact ⟨by decide, h.1, h.2.2.2.1, h.2.2.2.2⟩

end ScholarParse
